import Mathlib

/-!
Shallow embedding of the Repair-Data-Automation-System core (src/main.py):
the batch worker (`UploadWorker.run`, `categorizeError`, `filterFailedRecords`),
the task manager's ledger rewrite (`updateFileWithResults`, `onTaskFinished`,
`deleteRecordFromFile`, `isExactProductMatch`) and the uploader's two bounded
caches (`searchProductOptimized`, `getEditPageOptimized`).

Python strings are modelled as `List Char`; Python string operations
(`strip`, `split`, `lower`, substring membership, slicing) are modelled by
executable functions below.
-/

namespace RepairSystem

/-- Python strings are modelled as lists of characters. -/
abbrev Str := List Char

/-- Characters treated as whitespace by Python's `str.strip()`
(ASCII whitespace including vertical tab and form feed). -/
def pySpace (c : Char) : Bool :=
  c.isWhitespace || c = Char.ofNat 11 || c = Char.ofNat 12

/-- Python `str.strip()`: drop leading and trailing whitespace. -/
def strip (s : Str) : Str :=
  ((s.dropWhile pySpace).reverse.dropWhile pySpace).reverse

/-- Python `str.split(sep)` for a one-character separator: splits at every
occurrence, keeping empty chunks, and always returns at least one chunk. -/
def pySplit (sep : Char) : Str → List Str
  | [] => [[]]
  | c :: rest =>
    if c = sep then [] :: pySplit sep rest
    else
      match pySplit sep rest with
      | [] => [[c]]
      | r :: rs => (c :: r) :: rs

/-- First occurrence of a (nonempty) separator string: `some (before, after)`
when the separator occurs, `none` otherwise.  Models Python's
`sep in s` test (`isSome`) and `s.split(sep, 1)` (the pair). -/
def splitOnFirst (sep : Str) : Str → Option (Str × Str)
  | [] => none
  | c :: rest =>
    if sep.isPrefixOf (c :: rest) then some ([], (c :: rest).drop sep.length)
    else
      match splitOnFirst sep rest with
      | some (a, b) => some (c :: a, b)
      | none => none

/-- Python `needle in hay` substring test. -/
def hasSub (needle hay : Str) : Bool :=
  (splitOnFirst needle hay).isSome

/-- Python `str.lower()` (ASCII case folding; CJK characters are unaffected). -/
def pyLower (s : Str) : Str := s.map Char.toLower

/-- The ledger status separator `" // "`. -/
def statusSep : Str := " // ".data

/-! ## Error classifier (`UploadWorker.categorizeError`) -/

/-- Connection-related keywords tested first by `categorizeError`. -/
def connKeywords : List Str :=
  ["connection".data, "connect".data, "timeout".data, "network".data,
   "连接".data, "login".data, "登录".data, "cookie".data, "session".data,
   "http".data]

/-- Product-search keywords tested second by `categorizeError`. -/
def searchKeywords : List Str :=
  ["search".data, "not found".data, "no result".data, "搜索".data,
   "未找到".data, "product".data, "fid".data, "serial".data]

/-- Submission keywords tested third by `categorizeError`. -/
def submitKeywords : List Str :=
  ["submit".data, "post".data, "form".data, "data".data, "提交".data,
   "数据".data]

/-- The `连接失败` (connection failure) category. -/
def connFailMsg : Str := "连接失败".data

/-- The `未查找到产品FID` (product FID not found) category. -/
def notFoundMsg : Str := "未查找到产品FID".data

/-- The `提交失败` (submission failure) category, also the default for
empty input. -/
def submitFailMsg : Str := "提交失败".data

/-- `UploadWorker.categorizeError` (src/main.py lines 60-83): ordered keyword
matching over the lower-cased message; empty message gives the submission
failure default; unmatched messages are truncated to 50 characters. -/
def categorizeError (e : Str) : Str :=
  if e = [] then submitFailMsg
  else
    let low := pyLower e
    if connKeywords.any (fun k => hasSub k low) then connFailMsg
    else if searchKeywords.any (fun k => hasSub k low) then notFoundMsg
    else if submitKeywords.any (fun k => hasSub k low) then submitFailMsg
    else if 50 < e.length then e.take 50 else e

/-! ## Retry-mode filtering (`UploadWorker.filterFailedRecords`) -/

/-- One line of `filterFailedRecords`: blank lines are dropped; a line with
the status separator keeps its stripped original part unless the stripped
status is `success`; other lines are kept stripped. -/
def processLine (line : Str) : Option Str :=
  if strip line = [] then none
  else
    match splitOnFirst statusSep (strip line) with
    | some (a, st) => if strip st = "success".data then none else some (strip a)
    | none => some (strip line)

/-- `UploadWorker.filterFailedRecords` (src/main.py lines 85-102). -/
def filterFailedRecords (lines : List Str) : List Str :=
  lines.filterMap processLine

/-! ## Batch worker (`UploadWorker.run`) -/

/-- The part of a ledger line before the first `" // "`, or the whole line
when the separator is absent (Python `line.split(' // ')[0]`). -/
def beforeSep (l : Str) : Str :=
  match splitOnFirst statusSep l with
  | some (a, _) => a
  | none => l

/-- One per-record result (`UploadWorker.upload_results` entries, dict keys
`original_line`, `success`, `error`, `product_fid`). -/
structure UploadResult where
  original_line : Str
  success : Bool
  error : Str
  product_fid : Str
deriving DecidableEq, Repr

/-- The `repairData` dict built from fields 3..12 of a parsed line
(src/main.py lines 210-214); the source key `type` is `typeField` here. -/
structure RepairData where
  failureCausedType : Str
  repairResult : Str
  remarks : Str
  componentLocation : Str
  repairComponentA5E : Str
  typeField : Str
  failureKind : Str
  fcode : Str
  repairAction : Str
  engineer : Str
deriving DecidableEq, Repr

/-- Build `repairData` from the parsed field list (guarded by the
13-field check, so all indices are present). -/
def mkRepairData (data : List Str) : RepairData :=
  ⟨data.getD 3 [], data.getD 4 [], data.getD 5 [], data.getD 6 [],
   data.getD 7 [], data.getD 8 [], data.getD 9 [], data.getD 10 [],
   data.getD 11 [], data.getD 12 []⟩

/-- Deterministic model of `LowRiskOptimizedUploader` as seen by the worker:
whether `checkWebConnection` succeeds, the exception text when it fails,
and the per-record outcome of `processRepairRecordEnhanced`
(which returns a pair and never raises, src/main.py lines 1263-1281). -/
structure Uploader where
  connectionOk : Bool
  connectionError : Str
  processRecord : Str → RepairData → Bool × Str

/-- `original_line` for one raw line: in retry mode the filtered line is
used as is; otherwise any `" // "` status suffix is stripped
(src/main.py lines 153-159 and 189-195). -/
def stripStatusSuffix (retry_mode : Bool) (line : Str) : Str :=
  if retry_mode then line else beforeSep line

/-- The comma-separated fields of the original line, each stripped
(`[item.strip() for item in original_line.split(',')]`). -/
def parsedFields (retry_mode : Bool) (line : Str) : List Str :=
  (pySplit ',' (stripStatusSuffix retry_mode line)).map strip

/-- The `数据格式错误` (format error) category. -/
def formatErrorMsg : Str := "数据格式错误".data

/-- The `未知产品` fallback display id of the format-error branch. -/
def unknownProductMsg : Str := "未知产品".data

/-- The `记录<i+1>` fallback display id of the connection-failure branch. -/
def recordPlaceholder (i : Nat) : Str :=
  "记录".data ++ (Nat.repr (i + 1)).data

/-- Python `data[0] if len(data) > 0 else fallback`. -/
def firstFieldOr (data : List Str) (fallback : Str) : Str :=
  match data with
  | [] => fallback
  | d :: _ => d

/-- One failed result of the fast-fail branch after `checkWebConnection`
raises (src/main.py lines 148-171). -/
def authFailResult (retry_mode : Bool) (connErr : Str) (i : Nat)
    (line : Str) : UploadResult :=
  ⟨stripStatusSuffix retry_mode line, false, connErr,
   firstFieldOr (parsedFields retry_mode line) (recordPlaceholder i)⟩

/-- All failed results of the fast-fail branch, one per filtered line. -/
def authFailResults (retry_mode : Bool) (connErr : Str)
    (lines : List Str) : List UploadResult :=
  lines.enum.map (fun p => authFailResult retry_mode connErr p.1 p.2)

/-- The result recorded for a line with fewer than 13 fields
(src/main.py lines 198-207). -/
def formatErrorResult (original : Str) (data : List Str) : UploadResult :=
  ⟨original, false, formatErrorMsg, firstFieldOr data unknownProductMsg⟩

/-- First pass of `run` (src/main.py lines 184-215): format-error results
are appended to `upload_results` immediately, valid records are collected
into `processed_records` as `(productFID, repairData, original_line)`. -/
def parseLines (retry_mode : Bool) :
    List Str → List UploadResult × List (Str × RepairData × Str)
  | [] => ([], [])
  | line :: rest =>
    let original := stripStatusSuffix retry_mode line
    let data := parsedFields retry_mode line
    let tailRes := parseLines retry_mode rest
    if data.length < 13 then
      (formatErrorResult original data :: tailRes.1, tailRes.2)
    else
      (tailRes.1, (firstFieldOr data [], mkRepairData data, original) :: tailRes.2)

/-- Second pass of `run` (src/main.py lines 217-260): one call to
`processRepairRecordEnhanced` per valid record; a true outcome records a
success with error text `success`, a false outcome records the
categorized error detail. -/
def processOneRecord (up : Uploader) (productFID : Str)
    (repairData : RepairData) (original : Str) : UploadResult :=
  if (up.processRecord productFID repairData).1 then
    ⟨original, true, "success".data, productFID⟩
  else
    ⟨original, false,
     categorizeError (up.processRecord productFID repairData).2, productFID⟩

/-- The lines actually processed: retry mode filters out successes first
(src/main.py lines 130-134). -/
def effectiveLines (retry_mode : Bool) (lines0 : List Str) : List Str :=
  if retry_mode then filterFailedRecords lines0 else lines0

/-- `UploadWorker.run` after the file has been read into stripped non-blank
lines (src/main.py lines 120-300), with no cancellation: returns the final
result list and the number of per-record remote calls
(`processRepairRecordEnhanced` invocations).  An empty effective line set
terminates early with an empty result list. -/
def runWorker (up : Uploader) (retry_mode : Bool) (lines0 : List Str) :
    List UploadResult × Nat :=
  if effectiveLines retry_mode lines0 = [] then ([], 0)
  else if up.connectionOk = false then
    (authFailResults retry_mode (categorizeError up.connectionError)
      (effectiveLines retry_mode lines0), 0)
  else
    ((parseLines retry_mode (effectiveLines retry_mode lines0)).1
      ++ (parseLines retry_mode (effectiveLines retry_mode lines0)).2.map
           (fun r => processOneRecord up r.1 r.2.1 r.2.2),
     (parseLines retry_mode (effectiveLines retry_mode lines0)).2.length)

/-- Whether a line parses to fewer than 13 comma-separated fields. -/
def isFormatInvalid (retry_mode : Bool) (line : Str) : Bool :=
  decide ((parsedFields retry_mode line).length < 13)

/-- The format-error result a given invalid line produces. -/
def mkFormatResult (retry_mode : Bool) (line : Str) : UploadResult :=
  formatErrorResult (stripStatusSuffix retry_mode line)
    (parsedFields retry_mode line)

/-- The `processed_records` entry a given valid line produces. -/
def mkRecordEntry (retry_mode : Bool) (line : Str) :
    Str × RepairData × Str :=
  (firstFieldOr (parsedFields retry_mode line) [],
   mkRepairData (parsedFields retry_mode line),
   stripStatusSuffix retry_mode line)

/-- A stub uploader whose every remote call succeeds. -/
def upAllSuccess : Uploader :=
  ⟨true, [], fun _ _ => (true, "success".data)⟩

/-! ## Adaptive pacing (`UploadWorker.run`, src/main.py lines 265-279) -/

/-- The inter-record delay in milliseconds chosen after processing record
number `processed` (1-based) with `successCount` successes so far; the
running success rate is modelled as an exact rational. -/
def pacingDelayMs (successCount processed : Nat) : Nat :=
  if 0 < successCount then
    if (successCount : ℚ) / (processed : ℚ) > 95 / 100 then 50
    else if (successCount : ℚ) / (processed : ℚ) > 9 / 10 then 80
    else if (successCount : ℚ) / (processed : ℚ) > 7 / 10 then 150
    else 300
  else 150

/-- A stub uploader whose connection check raises a timeout. -/
def upConnFail : Uploader :=
  ⟨false, "timeout".data, fun _ _ => (false, [])⟩

/-! ## Bounded caches (`LowRiskOptimizedUploader`, src/main.py 1184-1261)

Python 3.7+ dicts preserve insertion order and `next(iter(cache))` is the
first-inserted key, so a cache is modelled as an association list in
insertion order (oldest first). -/

/-- A search-cache value: the `requestID`/`uRequestID` pair resolved for a
product FID. -/
structure SearchEntry where
  requestID : Str
  uRequestID : Str
deriving DecidableEq, Repr

/-- `self.max_cache_size = 100`. -/
def max_cache_size : Nat := 100

/-- The insert path shared by both caches: when the cache is full the
first-inserted (oldest) key is deleted, then the new pair is appended
(`next(iter(cache))` deletion followed by `cache[key] = value`). -/
def cacheInsert {α : Type} (c : List (Str × α)) (k : Str) (v : α) :
    List (Str × α) :=
  (if max_cache_size ≤ c.length then c.drop 1 else c) ++ [(k, v)]

/-- The cache effect of `searchProductOptimized` on a successful search:
a hit leaves the cache unchanged, a miss inserts with FIFO eviction. -/
def searchCacheStep (c : List (Str × SearchEntry)) (productFID : Str)
    (v : SearchEntry) : List (Str × SearchEntry) :=
  if (c.lookup productFID).isSome then c else cacheInsert c productFID v

/-- Page-cache keys are `"edit_" + uRequestID`. -/
def pageCacheKey (uRequestID : Str) : Str := "edit_".data ++ uRequestID

/-- The cache effect of `getEditPageOptimized` on an accepted page. -/
def pageCacheStep (c : List (Str × Str)) (uRequestID : Str) (text : Str) :
    List (Str × Str) :=
  if (c.lookup (pageCacheKey uRequestID)).isSome then c
  else cacheInsert c (pageCacheKey uRequestID) text

/-! ## Ledger rewrite (`TaskManager.updateFileWithResults`, `onTaskFinished`) -/

/-- A file-system action of the rewrite, in execution order. -/
inductive FileOp where
  | write : Str → List Str → FileOp
  | remove : Str → FileOp
deriving DecidableEq, Repr

/-- Last index at which `pred` holds, as Python `str.rfind` (-1 if none). -/
def rfind (pred : Char → Bool) (s : Str) : Int :=
  match (s.enum.filter (fun q => pred q.2)).getLast? with
  | some q => (q.1 : Int)
  | none => -1

/-- `os.path.splitext`: split at the last dot of the final path component,
unless every character between the last separator and that dot is a dot. -/
def splitext (s : Str) : Str × Str :=
  let sepIndex := max (rfind (fun c => c = '/') s) (rfind (fun c => c = '\\') s)
  let dotIndex := rfind (fun c => c = '.') s
  if (decide (sepIndex < dotIndex)
      && (List.range s.length).any
           (fun j => decide (sepIndex < (j : Int)) && decide ((j : Int) < dotIndex)
             && decide (s.getD j '.' ≠ '.'))) then
    (s.take dotIndex.toNat, s.drop dotIndex.toNat)
  else (s, [])

/-- Strip one trailing `_fail` or `_done` marker from the base name
(src/main.py lines 876-879). -/
def stripFailDoneMarker (base : Str) : Str :=
  if "_fail".data.isSuffixOf base then base.take (base.length - 5)
  else if "_done".data.isSuffixOf base then base.take (base.length - 5)
  else base

/-- The status text written for one result:
`error if error and error != "fail" else "提交失败"` for failures. -/
def renderStatusText (r : UploadResult) : Str :=
  if r.success then "success".data
  else if r.error ≠ [] ∧ r.error ≠ "fail".data then r.error else submitFailMsg

/-- One rewritten ledger line, `f"{original_line} // {status_text}\n"`. -/
def renderLine (r : UploadResult) : Str :=
  r.original_line ++ statusSep ++ renderStatusText r ++ [Char.ofNat 10]

/-- The output file name derived from the input name and the aggregate
outcome (src/main.py lines 874-882). -/
def newLedgerName (original_file : Str) (results : List UploadResult) : Str :=
  stripFailDoneMarker (splitext original_file).1
    ++ (if results.any (fun r => !r.success) then "_fail".data else "_done".data)
    ++ ".txt".data

/-- `TaskManager.updateFileWithResults` (src/main.py lines 852-898): returns
the new file name (`None` on an empty result list) and the file operations
performed, in order.  `originalExists` models `os.path.exists(original_file)`
at deletion time; the new file was just written so its existence check
holds. -/
def updateFileWithResults (originalExists : Bool) (original_file : Str)
    (results : List UploadResult) : Option Str × List FileOp :=
  if results = [] then (none, [])
  else
    (some (newLedgerName original_file results),
     [FileOp.write (newLedgerName original_file results) (results.map renderLine)]
       ++ (if originalExists = true ∧ newLedgerName original_file results ≠ original_file
           then [FileOp.remove original_file] else []))

/-- The task's tracked file path after `onTaskFinished` (src/main.py lines
832-836): updated only when a new name was returned and differs. -/
def updatedFilePath (current : Str) (newPath : Option Str) : Str :=
  match newPath with
  | some n => if n ≠ current then n else current
  | none => current

/-! ## Record deletion (`TaskManager.deleteRecordFromFile`, src/main.py 741-800) -/

/-- `TaskManager.isExactProductMatch`: the first comma-separated field,
stripped, must equal the target exactly.  (`split` never raises, so the
source's `startswith` fallback is unreachable.) -/
def isExactProductMatch (line_content : Str) (target_product_fid : Str) : Bool :=
  match (pySplit ',' line_content).map strip with
  | [] => false
  | p0 :: _ => decide (strip p0 = target_product_fid)

/-- Whether one stripped ledger line is deleted: the part before any
`" // "` status suffix is matched exactly. -/
def shouldDeleteLine (line_stripped : Str) (product_fid : Str) : Bool :=
  if hasSub statusSep line_stripped then
    isExactProductMatch (beforeSep line_stripped) product_fid
  else
    isExactProductMatch line_stripped product_fid

/-- `TaskManager.deleteRecordFromFile` on the file's lines: blank lines are
skipped, matching lines are counted and dropped, and the file is rewritten
(`some kept`) only when at least one line was deleted, else left unchanged
(`none`). -/
def deleteRecordFromFile (lines : List Str) (product_fid : Str) :
    Option (List Str) :=
  if 0 < lines.countP
      (fun l => !(decide (strip l = [])) && shouldDeleteLine (strip l) product_fid)
  then
    some (lines.filter
      (fun l => !(decide (strip l = [])) && !(shouldDeleteLine (strip l) product_fid)))
  else none

/-- A full search cache with 100 distinct one-character keys. -/
def searchCache100 : List (Str × SearchEntry) :=
  (List.range 100).map (fun i => ([Char.ofNat (256 + i)], ⟨[], []⟩))

/-- A full page cache with 100 distinct one-character keys. -/
def pageCache100 : List (Str × Str) :=
  (List.range 100).map (fun i => ([Char.ofNat (512 + i)], []))

/-! ## Theorems -/

/-- C2: `categorizeError` returns the submission-failure category on empty
input; otherwise it tests the lower-cased input against the connection,
search and submission keyword families in that fixed order, and falls back
to the input truncated to its first 50 characters.  It is a total function
by construction. -/
theorem categorizeError_ordered_classification (e : Str) :
    (e = [] → categorizeError e = submitFailMsg)
    ∧ (e ≠ [] → connKeywords.any (fun k => hasSub k (pyLower e)) = true →
        categorizeError e = connFailMsg)
    ∧ (e ≠ [] → connKeywords.any (fun k => hasSub k (pyLower e)) = false →
        searchKeywords.any (fun k => hasSub k (pyLower e)) = true →
        categorizeError e = notFoundMsg)
    ∧ (e ≠ [] → connKeywords.any (fun k => hasSub k (pyLower e)) = false →
        searchKeywords.any (fun k => hasSub k (pyLower e)) = false →
        submitKeywords.any (fun k => hasSub k (pyLower e)) = true →
        categorizeError e = submitFailMsg)
    ∧ (e ≠ [] → connKeywords.any (fun k => hasSub k (pyLower e)) = false →
        searchKeywords.any (fun k => hasSub k (pyLower e)) = false →
        submitKeywords.any (fun k => hasSub k (pyLower e)) = false →
        categorizeError e = e.take 50) := by
  refine ⟨?_, ?_, ?_, ?_, ?_⟩
  · intro h; simp [categorizeError, h]
  · intro h hc; simp [categorizeError, h, hc]
  · intro h hc hs; simp [categorizeError, h, hc, hs]
  · intro h hc hs hb; simp [categorizeError, h, hc, hs, hb]
  · intro h hc hs hb
    rcases lt_or_le 50 e.length with hl | hl
    · simp [categorizeError, h, hc, hs, hb, hl]
    · simp [categorizeError, h, hc, hs, hb, Nat.not_lt.mpr hl,
        List.take_of_length_le hl]

/-- Witness: concrete evaluations through each branch of
`categorizeError_ordered_classification`. -/
theorem categorizeError_ordered_classification_witness :
    categorizeError [] = submitFailMsg
    ∧ categorizeError "timeout".data = connFailMsg
    ∧ categorizeError "no result".data = notFoundMsg
    ∧ categorizeError "post".data = submitFailMsg
    ∧ categorizeError "xyz".data = "xyz".data := by
  refine ⟨(categorizeError_ordered_classification []).1 rfl, ?_, ?_, ?_, ?_⟩
  · exact (categorizeError_ordered_classification "timeout".data).2.1
      (by decide) (by decide)
  · exact (categorizeError_ordered_classification "no result".data).2.2.1
      (by decide) (by decide) (by decide)
  · exact (categorizeError_ordered_classification "post".data).2.2.2.1
      (by decide) (by decide) (by decide) (by decide)
  · exact ((categorizeError_ordered_classification "xyz".data).2.2.2.2
      (by decide) (by decide) (by decide) (by decide)).trans (by decide)

/-! ### Auxiliary lemmas on `strip` and `splitOnFirst` -/

theorem dropWhile_idem (p : Char → Bool) (l : Str) :
    (l.dropWhile p).dropWhile p = l.dropWhile p := by
  induction l with
  | nil => rfl
  | cons a t ih =>
    rw [List.dropWhile_cons]
    cases hp : p a with
    | true => simpa [hp] using ih
    | false => simp [List.dropWhile_cons, hp]

theorem dropWhile_eq_self_of_prefix {p : Char → Bool} {x y : Str}
    (h : x <+: y) (hy : y.dropWhile p = y) : x.dropWhile p = x := by
  match x with
  | [] => simp
  | a :: t =>
    obtain ⟨r, hr⟩ := h
    have ha : p a = false := by
      by_contra hpa
      have hpa' : p a = true := by
        cases hp : p a
        · exact absurd hp hpa
        · rfl
      rw [← hr, List.cons_append, List.dropWhile_cons, if_pos hpa'] at hy
      have hlen := ((List.dropWhile_suffix (l := t ++ r) p).sublist).length_le
      rw [hy] at hlen
      simp only [List.length_cons, List.length_append] at hlen
      omega
    simp [List.dropWhile_cons, ha]

theorem strip_prefix_dropWhile (s : Str) :
    strip s <+: s.dropWhile pySpace := by
  unfold strip
  have h := List.dropWhile_suffix (l := (s.dropWhile pySpace).reverse) pySpace
  have := List.reverse_prefix.mpr h
  rwa [List.reverse_reverse] at this

/-- The stripped string has no leading whitespace. -/
theorem strip_leftClean (s : Str) :
    (strip s).dropWhile pySpace = strip s :=
  dropWhile_eq_self_of_prefix (strip_prefix_dropWhile s) (dropWhile_idem _ _)

/-- The stripped string has no trailing whitespace. -/
theorem strip_rightClean (s : Str) :
    (strip s).reverse.dropWhile pySpace = (strip s).reverse := by
  unfold strip
  rw [List.reverse_reverse]
  exact dropWhile_idem _ _

theorem strip_of_clean {x : Str}
    (h1 : x.dropWhile pySpace = x)
    (h2 : x.reverse.dropWhile pySpace = x.reverse) : strip x = x := by
  unfold strip
  rw [h1, h2, List.reverse_reverse]

/-- Stripping is idempotent. -/
theorem strip_strip (s : Str) : strip (strip s) = strip s :=
  strip_of_clean (strip_leftClean s) (strip_rightClean s)

theorem head_false_of_clean {p : Char → Bool} {a : Char} {t : Str}
    (h : (a :: t).dropWhile p = a :: t) : p a = false := by
  cases hp : p a
  · rfl
  · rw [List.dropWhile_cons, if_pos hp] at h
    have hlen := ((List.dropWhile_suffix (l := t) p).sublist).length_le
    rw [h] at hlen
    simp only [List.length_cons] at hlen
    omega

theorem mem_of_dropWhile_eq_nil {p : Char → Bool} :
    ∀ {y : Str}, y.dropWhile p = [] → ∀ b ∈ y, p b = true := by
  intro y
  induction y with
  | nil => intro _ b hb; cases hb
  | cons c t ih =>
    intro h b hb
    rw [List.dropWhile_cons] at h
    cases hp : p c with
    | false => rw [if_neg (by simp [hp])] at h; cases h
    | true =>
      rw [if_pos hp] at h
      rcases List.mem_cons.mp hb with rfl | hb'
      · exact hp
      · exact ih h b hb'

/-- A string whose first character is not whitespace does not strip to
the empty string. -/
theorem strip_ne_nil_of_head {a : Char} {t : Str}
    (ha : pySpace a = false) : strip (a :: t) ≠ [] := by
  intro hnil
  unfold strip at hnil
  rw [List.dropWhile_cons, if_neg (by simp [ha])] at hnil
  have hv : ((a :: t).reverse.dropWhile pySpace) = [] := by
    rcases h : (a :: t).reverse.dropWhile pySpace with _ | _
    · rfl
    · rw [h] at hnil; simp at hnil
  have := mem_of_dropWhile_eq_nil hv a (by simp)
  rw [ha] at this
  cases this

theorem strip_infix_self (s : Str) : strip s <:+: s :=
  ((strip_prefix_dropWhile s).isInfix).trans
    ((List.dropWhile_suffix pySpace).isInfix)

theorem splitOnFirst_some (sep : Str) :
    ∀ {l a b : Str}, splitOnFirst sep l = some (a, b) →
      l = a ++ sep ++ b ∧ splitOnFirst sep a = none := by
  intro l
  induction l with
  | nil => intro a b h; cases h
  | cons c rest ih =>
    intro a b h
    rw [splitOnFirst] at h
    by_cases hp : sep.isPrefixOf (c :: rest)
    · rw [if_pos hp] at h
      obtain ⟨ha, hb⟩ : a = [] ∧ (c :: rest).drop sep.length = b := by
        have := h
        simp only [Option.some.injEq, Prod.mk.injEq] at this
        exact ⟨this.1.symm, this.2⟩
      have hpre : sep <+: c :: rest := List.isPrefixOf_iff_prefix.mp hp
      obtain ⟨t, ht⟩ := hpre
      subst ha
      constructor
      · rw [← hb, ← ht, List.nil_append, List.drop_left]
      · rfl
    · rw [if_neg hp] at h
      rcases hsplit : splitOnFirst sep rest with _ | ⟨⟨a', b'⟩⟩
      · rw [hsplit] at h; cases h
      · rw [hsplit] at h
        simp only [Option.some.injEq, Prod.mk.injEq] at h
        obtain ⟨ha, hb⟩ := h
        obtain ⟨hrest, hnone⟩ := ih hsplit
        subst ha hb
        constructor
        · rw [hrest]; rfl
        · rw [splitOnFirst]
          have hp' : ¬ sep.isPrefixOf (c :: a') := by
            intro hpa
            apply hp
            rw [List.isPrefixOf_iff_prefix] at hpa ⊢
            have : c :: rest = (c :: a') ++ (sep ++ b') := by
              rw [hrest]; simp
            rw [this]
            exact hpa.trans (List.prefix_append _ _)
          rw [if_neg hp', hnone]

theorem splitOnFirst_none_iff {sep : Str} (hsep : sep ≠ []) :
    ∀ {l : Str}, splitOnFirst sep l = none ↔ ¬ sep <:+: l := by
  intro l
  induction l with
  | nil =>
    refine ⟨fun _ hinf => hsep (List.eq_nil_of_infix_nil hinf), fun _ => rfl⟩
  | cons c rest ih =>
    rw [splitOnFirst]
    by_cases hp : sep.isPrefixOf (c :: rest)
    · rw [if_pos hp]
      constructor
      · intro h; cases h
      · intro h
        exact absurd ((List.isPrefixOf_iff_prefix.mp hp).isInfix) h
    · rw [if_neg hp]
      rcases hsplit : splitOnFirst sep rest with _ | ⟨⟨a', b'⟩⟩
      · constructor
        · intro _ hinf
          rcases List.infix_cons_iff.mp hinf with hpre | hinf'
          · exact hp (List.isPrefixOf_iff_prefix.mpr hpre)
          · exact (ih.mp hsplit) hinf'
        · intro _; rfl
      · constructor
        · intro h; cases h
        · intro h
          exfalso
          have : ¬ sep <:+: rest := fun hinf =>
            h (List.infix_cons_iff.mpr (Or.inr hinf))
          rw [← ih] at this
          rw [hsplit] at this
          cases this

theorem splitOnFirst_none_of_infix {sep x y : Str} (hsep : sep ≠ [])
    (hxy : x <:+: y) (hy : splitOnFirst sep y = none) :
    splitOnFirst sep x = none := by
  rw [splitOnFirst_none_iff hsep] at hy ⊢
  exact fun hinf => hy (hinf.trans hxy)

theorem filterMap_id_of_mem {α : Type} {f : α → Option α} :
    ∀ {l : List α}, (∀ x ∈ l, f x = some x) → l.filterMap f = l := by
  intro l
  induction l with
  | nil => intro _; rfl
  | cons a t ih =>
    intro h
    rw [List.filterMap_cons, h a (by simp)]
    rw [ih (fun x hx => h x (by simp [hx]))]

/-! ### Idempotence of retry filtering -/

theorem statusSep_ne_nil : statusSep ≠ [] := by decide

/-- Every line produced by `processLine` is stripped, nonempty, and free of
the status separator, so `processLine` maps it to itself. -/
theorem processLine_output_fixed {line x : Str}
    (h : processLine line = some x) : processLine x = some x := by
  unfold processLine at h
  by_cases hnil : strip line = []
  · rw [if_pos hnil] at h; cases h
  · rw [if_neg hnil] at h
    rcases hsplit : splitOnFirst statusSep (strip line) with _ | ⟨⟨a, st⟩⟩
    · rw [hsplit] at h
      dsimp only at h
      simp only [Option.some.injEq] at h
      subst h
      unfold processLine
      rw [if_neg (by rw [strip_strip]; exact hnil), strip_strip, hsplit]
    · rw [hsplit] at h
      dsimp only at h
      by_cases hsucc : strip st = "success".data
      · rw [if_pos hsucc] at h; cases h
      · rw [if_neg hsucc] at h
        simp only [Option.some.injEq] at h
        subst h
        obtain ⟨heq, hnone⟩ := splitOnFirst_some statusSep hsplit
        -- the part before the separator starts with a non-space character
        obtain ⟨c, t, hct⟩ : ∃ c t, strip line = c :: t := by
          rcases hsl : strip line with _ | ⟨c, t⟩
          · exact absurd hsl hnil
          · exact ⟨c, t, rfl⟩
        have hc : pySpace c = false := by
          have hclean : (strip line).dropWhile pySpace = strip line :=
            strip_leftClean line
          rw [hct] at hclean
          exact head_false_of_clean hclean
        have hane : ∃ c' t', a = c' :: t' ∧ pySpace c' = false := by
          rcases ha : a with _ | ⟨c', t'⟩
          · exfalso
            rw [ha, hct] at heq
            simp only [List.nil_append] at heq
            have hss : statusSep ++ st = ' ' :: ("//".data ++ [' '] ++ st) := by
              rfl
            rw [hss] at heq
            have hc1 : c = ' ' := (List.cons_eq_cons.mp heq).1
            rw [hc1] at hc
            exact absurd hc (by decide)
          · refine ⟨c', t', rfl, ?_⟩
            rw [ha, hct] at heq
            simp only [List.cons_append, List.append_assoc] at heq
            have hc1 : c = c' := (List.cons_eq_cons.mp heq).1
            rw [← hc1]
            exact hc
        obtain ⟨c', t', ha2, hc'⟩ := hane
        unfold processLine
        have hne : strip a ≠ [] := by
          rw [ha2]; exact strip_ne_nil_of_head hc'
        rw [if_neg (by rw [strip_strip]; exact hne), strip_strip]
        have hnone' : splitOnFirst statusSep (strip a) = none :=
          splitOnFirst_none_of_infix statusSep_ne_nil (strip_infix_self a) hnone
        rw [hnone']

/-- C8: retry-mode filtering is idempotent: applying `filterFailedRecords`
to its own output returns that output unchanged; in particular it is the
identity on an already-filtered set. -/
theorem filterFailedRecords_idempotent (lines : List Str) :
    filterFailedRecords (filterFailedRecords lines) =
      filterFailedRecords lines := by
  unfold filterFailedRecords
  apply filterMap_id_of_mem
  intro x hx
  obtain ⟨line, _, hline⟩ := List.mem_filterMap.mp hx
  exact processLine_output_fixed hline

/-! ### Worker lemmas and claim theorems -/

theorem pySplit_ne_nil (sep : Char) (l : Str) : pySplit sep l ≠ [] := by
  induction l with
  | nil => simp [pySplit]
  | cons c rest ih =>
    rw [pySplit]
    by_cases hc : c = sep
    · simp [hc]
    · rw [if_neg hc]
      rcases h : pySplit sep rest with _ | ⟨r, rs⟩
      · simp
      · simp

theorem parsedFields_ne_nil (retry_mode : Bool) (line : Str) :
    parsedFields retry_mode line ≠ [] := by
  unfold parsedFields
  intro h
  exact pySplit_ne_nil ',' (stripStatusSuffix retry_mode line)
    (List.map_eq_nil_iff.mp h)

/-- The first pass groups results: format errors of invalid lines in input
order, and processed-record entries of valid lines in input order. -/
theorem parseLines_eq (retry_mode : Bool) (lines : List Str) :
    parseLines retry_mode lines =
      ((lines.filter (isFormatInvalid retry_mode)).map (mkFormatResult retry_mode),
       (lines.filter (fun l => ! isFormatInvalid retry_mode l)).map
         (mkRecordEntry retry_mode)) := by
  induction lines with
  | nil => rfl
  | cons line rest ih =>
    by_cases hinv : (parsedFields retry_mode line).length < 13
    · have hb : isFormatInvalid retry_mode line = true := by
        simp [isFormatInvalid, hinv]
      simp [parseLines, ih, List.filter_cons, hb, hinv, mkFormatResult]
    · have hb : isFormatInvalid retry_mode line = false := by
        simp [isFormatInvalid, hinv]
      simp [parseLines, ih, List.filter_cons, hb, hinv, mkRecordEntry]

/-- C1 (amended): with a working connection the worker produces exactly one
result per effective line, but grouped, not interleaved: the format-error
results of all invalid lines come first in input order, followed by the
remote-call results of all valid lines in input order. -/
theorem runWorker_results_grouped (up : Uploader) (lines : List Str)
    (hconn : up.connectionOk = true) :
    (runWorker up false lines).1 =
      (lines.filter (isFormatInvalid false)).map (mkFormatResult false)
        ++ (lines.filter (fun l => ! isFormatInvalid false l)).map
             (fun l => processOneRecord up (mkRecordEntry false l).1
               (mkRecordEntry false l).2.1 (mkRecordEntry false l).2.2)
    ∧ (runWorker up false lines).1.length = lines.length := by
  have heff : effectiveLines false lines = lines := rfl
  by_cases hnil : lines = []
  · subst hnil
    exact ⟨rfl, rfl⟩
  · have hres : (runWorker up false lines).1 =
        (lines.filter (isFormatInvalid false)).map (mkFormatResult false)
          ++ (lines.filter (fun l => ! isFormatInvalid false l)).map
               (fun l => processOneRecord up (mkRecordEntry false l).1
                 (mkRecordEntry false l).2.1 (mkRecordEntry false l).2.2) := by
      unfold runWorker
      rw [heff, if_neg hnil, hconn]
      simp [parseLines_eq, List.map_map, Function.comp]
    refine ⟨hres, ?_⟩
    rw [hres]
    simp only [List.length_append, List.length_map]
    have := List.length_eq_length_filter_add (l := lines) (isFormatInvalid false)
    omega

/-- Witness: the grouped-results theorem evaluated on a concrete
two-line ledger under the all-success stub uploader. -/
theorem runWorker_results_grouped_witness :
    (runWorker upAllSuccess false
      ["A,1,2,3,4,5,6,7,8,9,10,11,12".data, "B,2".data]).1.length = 2 := by
  exact (runWorker_results_grouped upAllSuccess
    ["A,1,2,3,4,5,6,7,8,9,10,11,12".data, "B,2".data] rfl).2.trans rfl

/-- C1 (counterexample): a ledger whose valid line precedes its invalid
line yields results in the opposite order — the worker does not preserve
input order across the valid/invalid partition. -/
theorem runWorker_order_counterexample :
    ((runWorker upAllSuccess false
        ["A,1,2,3,4,5,6,7,8,9,10,11,12".data, "B,2".data]).1.map
      (fun r => r.original_line))
      = ["B,2".data, "A,1,2,3,4,5,6,7,8,9,10,11,12".data]
    ∧ "B,2".data ≠ "A,1,2,3,4,5,6,7,8,9,10,11,12".data := by
  constructor
  · rfl
  · decide

/-- C3: when authentication fails on a non-empty effective line set, the
worker makes zero per-record remote calls and reports every line failed
with the same single classified category. -/
theorem runWorker_auth_failure_short_circuit (up : Uploader)
    (retry_mode : Bool) (lines0 : List Str)
    (hconn : up.connectionOk = false)
    (hne : effectiveLines retry_mode lines0 ≠ []) :
    (runWorker up retry_mode lines0).2 = 0
    ∧ (runWorker up retry_mode lines0).1.length =
        (effectiveLines retry_mode lines0).length
    ∧ ∀ r ∈ (runWorker up retry_mode lines0).1,
        r.success = false ∧ r.error = categorizeError up.connectionError := by
  have hrun : runWorker up retry_mode lines0 =
      (authFailResults retry_mode (categorizeError up.connectionError)
        (effectiveLines retry_mode lines0), 0) := by
    unfold runWorker
    rw [if_neg hne, hconn]
    simp
  refine ⟨by rw [hrun], ?_, ?_⟩
  · rw [hrun]
    simp [authFailResults, List.enum]
  · intro r hr
    rw [hrun] at hr
    simp only [authFailResults, List.mem_map] at hr
    obtain ⟨p, _, rfl⟩ := hr
    exact ⟨rfl, rfl⟩

/-- Witness: the authentication-failure theorem on a concrete one-line
ledger. -/
theorem runWorker_auth_failure_short_circuit_witness :
    (runWorker upConnFail false ["A,1".data]).2 = 0
    ∧ (runWorker upConnFail false ["A,1".data]).1.length = 1 := by
  have h := runWorker_auth_failure_short_circuit upConnFail false
    ["A,1".data] rfl (by decide)
  exact ⟨h.1, h.2.1.trans rfl⟩

/-- C4: a line with fewer than 13 comma-separated fields yields exactly a
format-error result with the line's first field as display id, and no
remote call is made for it; its field list is never empty (Python's
`split` always returns at least one field), so the placeholder branch of
the display id is unreachable. -/
theorem runWorker_format_error_no_remote_call (up : Uploader) (line : Str)
    (hconn : up.connectionOk = true)
    (hinv : (parsedFields false line).length < 13) :
    runWorker up false [line] = ([mkFormatResult false line], 0)
    ∧ (mkFormatResult false line).success = false
    ∧ (mkFormatResult false line).error = formatErrorMsg
    ∧ parsedFields false line ≠ []
    ∧ (mkFormatResult false line).product_fid =
        firstFieldOr (parsedFields false line) unknownProductMsg
    ∧ ∀ lines, line ∈ lines →
        mkFormatResult false line ∈ (runWorker up false lines).1 := by
  refine ⟨?_, rfl, rfl, parsedFields_ne_nil false line, rfl, ?_⟩
  · unfold runWorker
    have heff : effectiveLines false [line] = [line] := rfl
    rw [heff, hconn]
    simp [parseLines, hinv, mkFormatResult]
  · intro lines hmem
    have hnil : lines ≠ [] := List.ne_nil_of_mem hmem
    have hres := (runWorker_results_grouped up lines hconn).1
    rw [hres]
    apply List.mem_append_left
    apply List.mem_map_of_mem
    rw [List.mem_filter]
    exact ⟨hmem, by simp [isFormatInvalid, hinv]⟩

/-- Witness: the format-error theorem on the concrete 10-field line of the
spec's testable property. -/
theorem runWorker_format_error_no_remote_call_witness :
    runWorker upAllSuccess false ["a,b,c,d,e,f,g,h,i,j".data] =
      ([mkFormatResult false "a,b,c,d,e,f,g,h,i,j".data], 0) :=
  (runWorker_format_error_no_remote_call upAllSuccess
    "a,b,c,d,e,f,g,h,i,j".data rfl (by decide)).1

/-- C7: the inter-record delay follows the running success rate buckets
(greater than 0.95, 0.90, 0.70 give 50, 80, 150 ms, else 300 ms) whenever
at least one record has succeeded, is always 150 ms when none has, and
selects 50, 80, 150, 300 ms at rates 0.96, 0.91, 0.75, 0.50. -/
theorem pacing_rate_buckets (s n : Nat) :
    (0 < s →
      (((s : ℚ) / (n : ℚ) > 95 / 100 → pacingDelayMs s n = 50)
      ∧ (¬ ((s : ℚ) / (n : ℚ) > 95 / 100) →
          (s : ℚ) / (n : ℚ) > 9 / 10 → pacingDelayMs s n = 80)
      ∧ (¬ ((s : ℚ) / (n : ℚ) > 95 / 100) →
          ¬ ((s : ℚ) / (n : ℚ) > 9 / 10) →
          (s : ℚ) / (n : ℚ) > 7 / 10 → pacingDelayMs s n = 150)
      ∧ (¬ ((s : ℚ) / (n : ℚ) > 95 / 100) →
          ¬ ((s : ℚ) / (n : ℚ) > 9 / 10) →
          ¬ ((s : ℚ) / (n : ℚ) > 7 / 10) → pacingDelayMs s n = 300)))
    ∧ (s = 0 → pacingDelayMs s n = 150)
    ∧ pacingDelayMs 96 100 = 50 ∧ pacingDelayMs 91 100 = 80
    ∧ pacingDelayMs 75 100 = 150 ∧ pacingDelayMs 50 100 = 300 := by
  refine ⟨?_, ?_, by norm_num [pacingDelayMs], by norm_num [pacingDelayMs], by norm_num [pacingDelayMs], by norm_num [pacingDelayMs]⟩
  · intro hs
    refine ⟨?_, ?_, ?_, ?_⟩
    · intro h1; simp [pacingDelayMs, hs, h1]
    · intro h1 h2; simp [pacingDelayMs, hs, h1, h2]
    · intro h1 h2 h3; simp [pacingDelayMs, hs, h1, h2, h3]
    · intro h1 h2 h3; simp [pacingDelayMs, hs, h1, h2, h3]
  · intro h; subst h; simp [pacingDelayMs]

/-- Witness: the pacing theorem applied at a 0.96 success rate and at
zero successes. -/
theorem pacing_rate_buckets_witness :
    pacingDelayMs 96 100 = 50 ∧ pacingDelayMs 0 5 = 150 :=
  ⟨((pacing_rate_buckets 96 100).1 (by norm_num)).1 (by norm_num),
   (pacing_rate_buckets 0 5).2.1 rfl⟩

/-! ### Cache, rewrite and deletion theorems -/

theorem cacheInsert_length_le {α : Type} (c : List (Str × α)) (k : Str)
    (v : α) (h : c.length ≤ 100) : (cacheInsert c k v).length ≤ 100 := by
  unfold cacheInsert max_cache_size
  split
  · next hfull =>
    simp only [List.length_append, List.length_drop, List.length_singleton]
    omega
  · next hnot =>
    simp only [List.length_append, List.length_singleton]
    omega

/-- C6: with either cache full at 100 entries, inserting a fresh key evicts
exactly the first-inserted (oldest) entry — FIFO, keeping the size at 100 —
and no insertion ever grows either cache beyond 100 entries. -/
theorem cache_fifo_eviction
    (c : List (Str × SearchEntry)) (k : Str) (v : SearchEntry)
    (p : List (Str × Str)) (u txt : Str)
    (hc : c.length = 100) (hk : (c.lookup k).isSome = false)
    (hp : p.length = 100) (hu : (p.lookup (pageCacheKey u)).isSome = false) :
    searchCacheStep c k v = c.tail ++ [(k, v)]
    ∧ (searchCacheStep c k v).length = 100
    ∧ pageCacheStep p u txt = p.tail ++ [(pageCacheKey u, txt)]
    ∧ (pageCacheStep p u txt).length = 100
    ∧ (∀ (c' : List (Str × SearchEntry)) (k' : Str) (v' : SearchEntry),
        c'.length ≤ 100 → (searchCacheStep c' k' v').length ≤ 100)
    ∧ (∀ (p' : List (Str × Str)) (u' txt' : Str),
        p'.length ≤ 100 → (pageCacheStep p' u' txt').length ≤ 100) := by
  have hs : searchCacheStep c k v = c.tail ++ [(k, v)] := by
    unfold searchCacheStep cacheInsert max_cache_size
    rw [hk]
    simp [hc, List.drop_one]
  have hpg : pageCacheStep p u txt = p.tail ++ [(pageCacheKey u, txt)] := by
    unfold pageCacheStep cacheInsert max_cache_size
    rw [hu]
    simp [hp, List.drop_one]
  refine ⟨hs, ?_, hpg, ?_, ?_, ?_⟩
  · rw [hs]
    simp only [List.length_append, List.length_tail, List.length_singleton, hc]
  · rw [hpg]
    simp only [List.length_append, List.length_tail, List.length_singleton, hp]
  · intro c' k' v' hlen
    unfold searchCacheStep
    split
    · exact hlen
    · exact cacheInsert_length_le c' k' v' hlen
  · intro p' u' txt' hlen
    unfold pageCacheStep
    split
    · exact hlen
    · exact cacheInsert_length_le p' (pageCacheKey u') txt' hlen

/-- Witness: the FIFO eviction theorem on two concrete full caches. -/
theorem cache_fifo_eviction_witness :
    searchCacheStep searchCache100 "a".data ⟨[], []⟩
      = searchCache100.tail ++ [("a".data, ⟨[], []⟩)]
    ∧ pageCacheStep pageCache100 "u".data []
      = pageCache100.tail ++ [(pageCacheKey "u".data, [])] := by
  have h := cache_fifo_eviction searchCache100 "a".data ⟨[], []⟩
    pageCache100 "u".data [] (by decide) (by decide) (by decide) (by decide)
  exact ⟨h.1, h.2.2.1⟩

/-- C5: on a non-empty result list the rewrite returns the derived name
(stripped base plus `_fail.txt` on any failure else `_done.txt`), first
writes the rendered lines (`originalLine // status` with the `提交失败`
fallback) to the new file, and deletes the original only afterwards and
only when the names differ (and the original still exists). -/
theorem updateFileWithResults_spec (originalExists : Bool)
    (original_file : Str) (results : List UploadResult)
    (hne : results ≠ []) :
    (updateFileWithResults originalExists original_file results).1 =
      some (newLedgerName original_file results)
    ∧ newLedgerName original_file results =
        stripFailDoneMarker (splitext original_file).1
          ++ (if results.any (fun r => !r.success) then "_fail".data
              else "_done".data)
          ++ ".txt".data
    ∧ (updateFileWithResults originalExists original_file results).2.head? =
        some (FileOp.write (newLedgerName original_file results)
          (results.map (fun r => r.original_line ++ statusSep
            ++ (if r.success then "success".data
                else if r.error ≠ [] ∧ r.error ≠ "fail".data then r.error
                else submitFailMsg)
            ++ [Char.ofNat 10])))
    ∧ (∀ f, FileOp.remove f ∈
          (updateFileWithResults originalExists original_file results).2 →
        f = original_file
          ∧ newLedgerName original_file results ≠ original_file
          ∧ originalExists = true)
    ∧ ((updateFileWithResults originalExists original_file results).2 =
          [FileOp.write (newLedgerName original_file results)
            (results.map renderLine)]
        ∨ (updateFileWithResults originalExists original_file results).2 =
          [FileOp.write (newLedgerName original_file results)
            (results.map renderLine),
           FileOp.remove original_file]) := by
  have hupd : updateFileWithResults originalExists original_file results =
      (some (newLedgerName original_file results),
       [FileOp.write (newLedgerName original_file results)
         (results.map renderLine)]
         ++ (if originalExists = true
               ∧ newLedgerName original_file results ≠ original_file
             then [FileOp.remove original_file] else [])) := by
    unfold updateFileWithResults
    rw [if_neg hne]
  have hrl : renderLine = (fun r : UploadResult =>
      r.original_line ++ statusSep
        ++ (if r.success then "success".data
            else if r.error ≠ [] ∧ r.error ≠ "fail".data then r.error
            else submitFailMsg)
        ++ [Char.ofNat 10]) :=
    funext (fun r => rfl)
  refine ⟨?_, rfl, ?_, ?_, ?_⟩
  · rw [hupd]
  · rw [hupd, ← hrl]
    rfl
  · intro f hf
    rw [hupd] at hf
    simp only [List.cons_append, List.nil_append, List.mem_cons] at hf
    rcases hf with hf | hf
    · cases hf
    · split at hf
      · next hcond =>
        simp only [List.mem_singleton] at hf
        cases hf
        exact ⟨rfl, hcond.2, hcond.1⟩
      · simp at hf
  · rw [hupd]
    split
    · right; rfl
    · left; rfl

/-- Witness: the rewrite theorem on a concrete one-failure result list. -/
theorem updateFileWithResults_spec_witness :
    (updateFileWithResults true "records.txt".data
      [⟨"A".data, false, "x".data, "A".data⟩]).1 =
      some (newLedgerName "records.txt".data
        [⟨"A".data, false, "x".data, "A".data⟩])
    ∧ newLedgerName "records.txt".data
        [⟨"A".data, false, "x".data, "A".data⟩] = "records_fail.txt".data :=
  ⟨(updateFileWithResults_spec true "records.txt".data
      [⟨"A".data, false, "x".data, "A".data⟩] (by simp)).1,
   by decide⟩

/-- C10: an empty result list makes the rewrite return `None` with no file
operation at all, and the task's tracked file path stays unchanged. -/
theorem updateFileWithResults_empty_noop (originalExists : Bool)
    (f p : Str) :
    updateFileWithResults originalExists f [] = (none, [])
    ∧ updatedFilePath p (updateFileWithResults originalExists f []).1 = p := by
  constructor
  · simp [updateFileWithResults]
  · simp [updateFileWithResults, updatedFilePath]

theorem isExactProductMatch_eq (content fid : Str) :
    isExactProductMatch content fid =
      decide (strip (firstFieldOr ((pySplit ',' content).map strip) []) = fid) := by
  unfold isExactProductMatch
  rcases h : (pySplit ',' content).map strip with _ | ⟨p0, rest⟩
  · exact absurd (List.map_eq_nil_iff.mp h) (pySplit_ne_nil ',' content)
  · rfl

theorem shouldDeleteLine_eq (s fid : Str) :
    shouldDeleteLine s fid =
      decide (strip (firstFieldOr
        ((pySplit ',' (beforeSep s)).map strip) []) = fid) := by
  unfold shouldDeleteLine
  by_cases hsub : hasSub statusSep s
  · rw [if_pos hsub]
    exact isExactProductMatch_eq _ _
  · rw [if_neg hsub]
    have hbs : beforeSep s = s := by
      unfold beforeSep
      unfold hasSub at hsub
      rcases h : splitOnFirst statusSep s with _ | pr
      · rfl
      · rw [h] at hsub
        simp at hsub
    rw [hbs]
    exact isExactProductMatch_eq _ _

/-- C9 (counterexample): deleting `ABC123` from a file with a blank line
also drops the blank line, although the blank line does not match the
delete predicate — the rewrite does not keep every non-matching line. -/
theorem deleteRecordFromFile_blank_line_counterexample :
    deleteRecordFromFile
        ["ABC123,x".data, "   ".data, "KEEP,y".data] "ABC123".data
      = some ["KEEP,y".data]
    ∧ shouldDeleteLine (strip "   ".data) "ABC123".data = false
    ∧ "   ".data ∉ ["KEEP,y".data] := by
  refine ⟨by decide, by decide, by decide⟩

/-- C9 (amended): when at least one non-blank line matches, the rewrite
keeps exactly the non-blank lines whose first comma-separated field (status
suffix ignored, whitespace stripped) differs from the product FID — blank
lines are dropped as well — and deleting `ABC123` removes the `ABC123,`
line but keeps the `ABC1234,` line.  When no line matches, the file is
left unchanged (`none`). -/
theorem deleteRecordFromFile_exact_match (lines : List Str) (fid : Str)
    (hmatch : 0 < lines.countP
      (fun l => !(decide (strip l = [])) && shouldDeleteLine (strip l) fid)) :
    ∃ kept, deleteRecordFromFile lines fid = some kept
    ∧ (∀ l ∈ lines, (l ∈ kept ↔ (strip l ≠ [] ∧
        strip (firstFieldOr
          ((pySplit ',' (beforeSep (strip l))).map strip) []) ≠ fid)))
    ∧ deleteRecordFromFile ["ABC123,q".data, "ABC1234,q".data] "ABC123".data
        = some ["ABC1234,q".data] := by
  refine ⟨lines.filter
      (fun l => !(decide (strip l = [])) && !(shouldDeleteLine (strip l) fid)),
    ?_, ?_, by decide⟩
  · unfold deleteRecordFromFile
    rw [if_pos hmatch]
  · intro l hl
    simp only [List.mem_filter, hl, true_and, Bool.and_eq_true,
      Bool.not_eq_true', decide_eq_false_iff_not, shouldDeleteLine_eq,
      decide_eq_false_iff_not]

/-- Witness: the exact-match deletion theorem at the spec's
`ABC123` / `ABC1234` example. -/
theorem deleteRecordFromFile_exact_match_witness :
    deleteRecordFromFile ["ABC123,q".data, "ABC1234,q".data] "ABC123".data
      = some ["ABC1234,q".data] := by
  obtain ⟨kept, h1, h2, h3⟩ := deleteRecordFromFile_exact_match
    ["ABC123,q".data, "ABC1234,q".data] "ABC123".data (by decide)
  exact h3

end RepairSystem
